import Mathlib

/-!
# Verification of the criteria-extraction pipeline

A shallow embedding of `backend/app/agents/llm_document_soft_agents.py`.
Python strings are modelled as `List Char` (`PyStr`); Python dicts used as
criterion records are modelled by the `Criterion` structure with optional
fields (a missing dict key is `none`); the insertion-ordered dict used by
the merger is modelled as an association list with in-place update.
The completion provider is an oracle parameter supplying raw response text.
The `raw_result` diagnostic string carried by some envelopes is not
modelled; no claim refers to it.
-/

/-- Python strings, modelled as their character sequences. -/
abbrev PyStr := List Char

/-- The characters Python's `str.strip()` removes (Python whitespace). -/
def isPySpace (c : Char) : Bool :=
  c == ' ' || c == '\t' || c == '\n' || c == '\r' || c == '\x0b' || c == '\x0c'

/-- `str.lstrip()` -/
def pyStripLeft (s : PyStr) : PyStr := s.dropWhile isPySpace

/-- `str.rstrip()` -/
def pyStripRight (s : PyStr) : PyStr := s.rdropWhile isPySpace

/-- `str.strip()` -/
def pyStrip (s : PyStr) : PyStr := pyStripLeft (pyStripRight s)

/-- `str.lower()` (ASCII-faithful). -/
def pyLower (s : PyStr) : PyStr := s.map Char.toLower

/-- One extracted criterion: the dict keys the pipeline reads.  A key that
may be absent from the underlying dict is an `Option`. -/
structure Criterion where
  name : Option PyStr
  description : Option PyStr
  coefficient : Option Int
deriving DecidableEq, Repr

instance : Inhabited Criterion := ⟨⟨none, none, none⟩⟩

/-- `criterion.get('name', '').lower().strip()` — the dedup key. -/
def normName (c : Criterion) : PyStr := pyStrip (pyLower (c.name.getD []))

/-- `criterion.get('coefficient', 0)`. -/
def coefD (c : Criterion) : Int := c.coefficient.getD 0

/-- The insertion-ordered dict `unique_criteria`. -/
abbrev CritMap := List (PyStr × Criterion)

/-- Dict lookup. -/
def mapLookup : CritMap → PyStr → Option Criterion
  | [], _ => none
  | (k, v) :: m, n => if k = n then some v else mapLookup m n

/-- Dict update of an existing key: in Python 3.7+ assigning to a present
key keeps its insertion position, so the entry is replaced in place. -/
def mapUpdate : CritMap → PyStr → Criterion → CritMap
  | [], _, _ => []
  | (k, v) :: m, n, c => if k = n then (k, c) :: m else (k, v) :: mapUpdate m n c

/-- One iteration of the dedup loop of `_merge_and_rank_criteria`. -/
def dedupStep (m : CritMap) (criterion : Criterion) : CritMap :=
  let name := normName criterion
  if name ≠ [] then
    match mapLookup m name with
    | none => m ++ [(name, criterion)]
    | some stored =>
        if coefD criterion > coefD stored then mapUpdate m name criterion else m
  else m

/-- The `unique_criteria` dict after the whole dedup loop. -/
def dedupAll (all_criteria : List Criterion) : CritMap :=
  all_criteria.foldl dedupStep []

/-- `unique_criteria.values()`. -/
def dedupVals (all_criteria : List Criterion) : List Criterion :=
  (dedupAll all_criteria).map Prod.snd

/-- The sort relation of `sorted(..., key=coefficient, reverse=True)`:
`a` may come before `b` when its key is at least `b`'s. -/
def coefGE (a b : Criterion) : Prop := coefD b ≤ coefD a

instance : DecidableRel coefGE := fun a b => Int.decLe (coefD b) (coefD a)

instance : IsTotal Criterion coefGE := ⟨fun a b => le_total (coefD b) (coefD a)⟩

instance : IsTrans Criterion coefGE := ⟨fun _ _ _ h1 h2 => le_trans h2 h1⟩

/-- `_merge_and_rank_criteria`: dedup by normalized name keeping the
strictly-higher coefficient, stable-sort descending, truncate to 15. -/
def merge_and_rank_criteria (all_criteria : List Criterion) : List Criterion :=
  if all_criteria = [] then []
  else (List.insertionSort coefGE (dedupVals all_criteria)).take 15

/-! ## Chunker (`_chunk_text`) -/

/-- The paragraph separator appended after each accumulated paragraph. -/
def nl2 : PyStr := ['\n', '\n']

/-- `text.split('\n\n')`: leftmost, non-overlapping splitting on the
two-character separator, as Python's `str.split` does. -/
def splitParas : PyStr → List PyStr
  | [] => [[]]
  | '\n' :: '\n' :: rest => [] :: splitParas rest
  | c :: rest =>
    match splitParas rest with
    | [] => [[c]]
    | h :: t => (c :: h) :: t

/-- The accumulation loop of `_chunk_text`: greedily add paragraphs while
`len(current_chunk) + len(para) < max_chars`, otherwise close the current
chunk (stripped) and restart the buffer from the offending paragraph. -/
def chunkLoop (maxc : Nat) : List PyStr → PyStr → List PyStr
  | [], current => if current ≠ [] then [pyStrip current] else []
  | para :: rest, current =>
    if current.length + para.length < maxc then
      chunkLoop maxc rest (current ++ para ++ nl2)
    else
      (if current ≠ [] then [pyStrip current] else []) ++ chunkLoop maxc rest (para ++ nl2)

/-- `_chunk_text`: a short text is returned whole; a long one is split on
paragraph boundaries. -/
def chunk_text (text : PyStr) (max_chars : Nat := 8000) : List PyStr :=
  if text.length ≤ max_chars then [text]
  else chunkLoop max_chars (splitParas text) []

/-! ## `json.loads` model

A strict JSON parser over `PyStr`.  JSON numbers are kept exact: an
integer literal becomes `Json.num`, a literal with a fraction or exponent
becomes `Json.fnum` holding its decimal mantissa and power of ten, so no
floating-point semantics is needed.  Recursion is fuelled; `json_loads`
supplies fuel ample for its input, and every concrete evaluation below
stays far under it. -/

inductive Json where
  | null
  | bool (b : Bool)
  | num (n : Int)
  | fnum (mantissa : Int) (exp10 : Int)
  | str (s : PyStr)
  | arr (elems : List Json)
  | obj (fields : List (PyStr × Json))

/-- JSON whitespace (as accepted between tokens by `json.loads`). -/
def isJsonWs (c : Char) : Bool :=
  c == ' ' || c == '\t' || c == '\n' || c == '\r'

def skipWs (s : PyStr) : PyStr := s.dropWhile isJsonWs

def isHexDigit (c : Char) : Bool :=
  c.isDigit || ('a' ≤ c && c ≤ 'f') || ('A' ≤ c && c ≤ 'F')

def hexVal (c : Char) : Nat :=
  if c.isDigit then c.toNat - '0'.toNat
  else if 'a' ≤ c && c ≤ 'f' then c.toNat - 'a'.toNat + 10
  else c.toNat - 'A'.toNat + 10

/-- Body of a JSON string literal, after the opening quote. -/
def parseJString : Nat → PyStr → Except PyStr (PyStr × PyStr)
  | 0, _ => .error ("model: out of fuel".toList)
  | _ + 1, [] => .error ("Unterminated string".toList)
  | _ + 1, '"' :: rest => .ok ([], rest)
  | fuel + 1, '\\' :: esc =>
    match esc with
    | '"' :: r => (fun p => ('"' :: p.1, p.2)) <$> parseJString fuel r
    | '\\' :: r => (fun p => ('\\' :: p.1, p.2)) <$> parseJString fuel r
    | '/' :: r => (fun p => ('/' :: p.1, p.2)) <$> parseJString fuel r
    | 'b' :: r => (fun p => ('\x08' :: p.1, p.2)) <$> parseJString fuel r
    | 'f' :: r => (fun p => ('\x0c' :: p.1, p.2)) <$> parseJString fuel r
    | 'n' :: r => (fun p => ('\n' :: p.1, p.2)) <$> parseJString fuel r
    | 'r' :: r => (fun p => ('\r' :: p.1, p.2)) <$> parseJString fuel r
    | 't' :: r => (fun p => ('\t' :: p.1, p.2)) <$> parseJString fuel r
    | 'u' :: h1 :: h2 :: h3 :: h4 :: r =>
      if isHexDigit h1 && isHexDigit h2 && isHexDigit h3 && isHexDigit h4 then
        let code := ((hexVal h1 * 16 + hexVal h2) * 16 + hexVal h3) * 16 + hexVal h4
        (fun p => (Char.ofNat code :: p.1, p.2)) <$> parseJString fuel r
      else .error ("Invalid \\uXXXX escape".toList)
    | _ => .error ("Invalid \\escape".toList)
  | fuel + 1, c :: rest =>
    if c.toNat < 0x20 then .error ("Invalid control character".toList)
    else (fun p => (c :: p.1, p.2)) <$> parseJString fuel rest

/-- Digits of a nonnegative decimal numeral. -/
def digitsVal (ds : PyStr) : Nat :=
  ds.foldl (fun acc c => acc * 10 + (c.toNat - '0'.toNat)) 0

/-- A JSON number token starting at the given input. -/
def parseNumber (s : PyStr) : Except PyStr (Json × PyStr) :=
  let (neg, s1) := match s with
                   | '-' :: r => (true, r)
                   | _ => (false, s)
  let intDigits := s1.takeWhile Char.isDigit
  let s2 := s1.dropWhile Char.isDigit
  if intDigits = [] then .error ("Expecting value".toList)
  else if intDigits.head? = some '0' ∧ intDigits.length > 1 then
    .error ("Expecting value: leading zero".toList)
  else
    let ipart : Int := (digitsVal intDigits : Int)
    let (fracDigits, s3, fracOk) :=
      match s2 with
      | '.' :: r =>
        let fd := r.takeWhile Char.isDigit
        (fd, r.dropWhile Char.isDigit, !fd.isEmpty)
      | _ => ([], s2, true)
    let hasExp := s3.head? = some 'e' ∨ s3.head? = some 'E'
    if fracOk = false then .error ("Expecting digits after decimal point".toList)
    else if hasExp then
      let s4 := s3.tail
      let (expNeg, s5) := match s4 with
                          | '-' :: r => (true, r)
                          | '+' :: r => (false, r)
                          | _ => (false, s4)
      let expDigits := s5.takeWhile Char.isDigit
      let s6 := s5.dropWhile Char.isDigit
      if expDigits = [] then .error ("Expecting digits in exponent".toList)
      else
        let mant : Int := ipart * (10 : Int) ^ fracDigits.length + (digitsVal fracDigits : Int)
        let mant := if neg then -mant else mant
        let ex : Int := (if expNeg then -(digitsVal expDigits : Int) else (digitsVal expDigits : Int))
                          - (fracDigits.length : Int)
        .ok (Json.fnum mant ex, s6)
    else if fracDigits = [] then
      .ok (Json.num (if neg then -ipart else ipart), s3)
    else
      let mant : Int := ipart * (10 : Int) ^ fracDigits.length + (digitsVal fracDigits : Int)
      .ok (Json.fnum (if neg then -mant else mant) (-(fracDigits.length : Int)), s3)

mutual

/-- A JSON value starting at the given input (leading whitespace allowed). -/
def parseValue : Nat → PyStr → Except PyStr (Json × PyStr)
  | 0, _ => .error ("model: out of fuel".toList)
  | fuel + 1, s =>
    match skipWs s with
    | [] => .error ("Expecting value".toList)
    | '{' :: rest => parseObjRest fuel rest
    | '[' :: rest => parseArrRest fuel rest
    | '"' :: rest => (fun p => (Json.str p.1, p.2)) <$> parseJString (fuel + 1) rest
    | 't' :: 'r' :: 'u' :: 'e' :: rest => .ok (Json.bool true, rest)
    | 'f' :: 'a' :: 'l' :: 's' :: 'e' :: rest => .ok (Json.bool false, rest)
    | 'n' :: 'u' :: 'l' :: 'l' :: rest => .ok (Json.null, rest)
    | c :: rest =>
      if c = '-' ∨ c.isDigit then parseNumber (c :: rest)
      else .error ("Expecting value".toList)

/-- The inside of an object, after `{`. -/
def parseObjRest : Nat → PyStr → Except PyStr (Json × PyStr)
  | 0, _ => .error ("model: out of fuel".toList)
  | fuel + 1, s =>
    match skipWs s with
    | '}' :: rest => .ok (Json.obj [], rest)
    | '"' :: rest =>
      match parseJString (fuel + 1) rest with
      | .error e => .error e
      | .ok (key, rest1) => parseObjFields fuel key rest1 []
    | _ => .error ("Expecting property name enclosed in double quotes".toList)

/-- Remaining fields of an object, after a field's key has been read. -/
def parseObjFields : Nat → PyStr → PyStr → List (PyStr × Json) →
    Except PyStr (Json × PyStr)
  | 0, _, _, _ => .error ("model: out of fuel".toList)
  | fuel + 1, key, s, acc =>
    match skipWs s with
    | ':' :: rest =>
      match parseValue fuel rest with
      | .error e => .error e
      | .ok (v, rest1) =>
        match skipWs rest1 with
        | ',' :: rest2 =>
          match skipWs rest2 with
          | '"' :: rest3 =>
            match parseJString (fuel + 1) rest3 with
            | .error e => .error e
            | .ok (key2, rest4) => parseObjFields fuel key2 rest4 (acc ++ [(key, v)])
          | _ => .error ("Expecting property name enclosed in double quotes".toList)
        | '}' :: rest2 => .ok (Json.obj (acc ++ [(key, v)]), rest2)
        | _ => .error ("Expecting , delimiter".toList)
    | _ => .error ("Expecting : delimiter".toList)

/-- The inside of an array, after `[`. -/
def parseArrRest : Nat → PyStr → Except PyStr (Json × PyStr)
  | 0, _ => .error ("model: out of fuel".toList)
  | fuel + 1, s =>
    match skipWs s with
    | ']' :: rest => .ok (Json.arr [], rest)
    | _ => parseArrElems fuel s []

/-- Elements of a nonempty array. -/
def parseArrElems : Nat → PyStr → List Json → Except PyStr (Json × PyStr)
  | 0, _, _ => .error ("model: out of fuel".toList)
  | fuel + 1, s, acc =>
    match parseValue fuel s with
    | .error e => .error e
    | .ok (v, rest) =>
      match skipWs rest with
      | ',' :: rest1 => parseArrElems fuel rest1 (acc ++ [v])
      | ']' :: rest1 => .ok (Json.arr (acc ++ [v]), rest1)
      | _ => .error ("Expecting , delimiter".toList)

end

/-- `json.loads`: parse one value and require only whitespace after it. -/
def json_loads (s : PyStr) : Except PyStr Json :=
  match parseValue (2 * s.length + 4) s with
  | .error e => .error e
  | .ok (v, rest) =>
    if skipWs rest = [] then .ok v else .error ("Extra data".toList)

/-! ## `safe_json_loads` -/

/-- `re.sub(r',(\s*[}\]])', r'\1', s)`: drop every comma that is followed,
up to whitespace, by a closing brace or bracket; scanning resumes after
the match. -/
def removeTrailingCommas : Nat → PyStr → PyStr
  | 0, s => s
  | fuel + 1, s =>
    match s with
    | [] => []
    | ',' :: rest =>
      let ws := rest.takeWhile isPySpace
      match rest.dropWhile isPySpace with
      | c :: rest2 =>
        if c = '}' ∨ c = ']' then ws ++ c :: removeTrailingCommas fuel rest2
        else ',' :: removeTrailingCommas fuel rest
      | [] => ',' :: removeTrailingCommas fuel rest
    | c :: rest => c :: removeTrailingCommas fuel rest

/-- `s.find('{')` on a string known to contain `'{'`. -/
def firstIdx (c : Char) (s : PyStr) : Nat := (s.takeWhile (· ≠ c)).length

/-- `s.rfind('}')` on a string known to contain `'}'`. -/
def lastIdx (c : Char) (s : PyStr) : Nat :=
  s.length - 1 - (s.reverse.takeWhile (· ≠ c)).length

/-- The bracket-closing repair: for each excess `{` over `}` append `}`,
then for each excess `[` over `]` append `]` (in that order, as the
source does). -/
def appendClosers (s : PyStr) : PyStr :=
  let s1 := s ++ List.replicate (s.count '{' - s.count '}') '}'
  s1 ++ List.replicate (s1.count '[' - s1.count ']') ']'

/-- `safe_json_loads`: parse, else strip / drop trailing commas / slice
from the first `{` to the last `}`, parse again, else append synthetic
closers and make a final attempt whose failure propagates. -/
def safe_json_loads (s : PyStr) : Except PyStr Json :=
  match json_loads s with
  | .ok v => .ok v
  | .error _ =>
    let s1 := pyStrip s
    let s2 := removeTrailingCommas (s1.length + 1) s1
    let s3 := if '{' ∈ s2 ∧ '}' ∈ s2 then
                (s2.take (lastIdx '}' s2 + 1)).drop (firstIdx '{' s2)
              else s2
    match json_loads s3 with
    | .ok v => .ok v
    | .error _ => json_loads (appendClosers s3)

/-! ## Fence stripping and response processing -/

/-- Index of the first occurrence of `sep` in `s`. -/
def findSub : Nat → PyStr → PyStr → Option Nat
  | 0, _, _ => none
  | fuel + 1, sep, s =>
    if sep.isPrefixOf s then some 0
    else
      match s with
      | [] => none
      | _ :: rest => (findSub fuel sep rest).map (· + 1)

/-- `sep in s` for a nonempty separator. -/
def pyContainsSub (sep s : PyStr) : Bool := (findSub (s.length + 1) sep s).isSome

/-- The worker behind `str.split(sep)`. -/
def pySplitGo : Nat → PyStr → PyStr → List PyStr
  | 0, _, s => [s]
  | fuel + 1, sep, s =>
    match findSub (s.length + 1) sep s with
    | none => [s]
    | some i => s.take i :: pySplitGo fuel sep (s.drop (i + sep.length))

/-- `s.split(sep)` for a nonempty separator. -/
def pySplit (sep s : PyStr) : List PyStr := pySplitGo (s.length + 1) sep s

/-- The fence-stripping preamble shared by `_parse_extraction_result` and
the chunk loop: take the content of a ```json or ``` fenced block, else
the text unchanged. -/
def cleanMarkdown (result_str : PyStr) : PyStr :=
  if pyContainsSub ("```json".toList) result_str then
    pyStrip ((pySplit ("```".toList) ((pySplit ("```json".toList) result_str).getD 1 [])).getD 0 [])
  else if pyContainsSub ("```".toList) result_str then
    pyStrip ((pySplit ("```".toList) ((pySplit ("```".toList) result_str).getD 1 [])).getD 0 [])
  else result_str

/-! ## Pipeline: envelopes, exceptions, both extraction paths, orchestrator

The completion provider (`crew.kickoff()`) is external; its response text
is an oracle parameter.  A computation that can raise is an
`Except PyExc`; an uncaught exception is an `Except.error` value. -/

/-- The Python exceptions the pipeline can raise or catch. -/
inductive PyExc where
  | jsonDecodeError (msg : PyStr)
  | attributeError (msg : PyStr)
  | typeError (msg : PyStr)
deriving DecidableEq, Repr

/-- `str(e)`. -/
def PyExc.message : PyExc → PyStr
  | .jsonDecodeError m => m
  | .attributeError m => m
  | .typeError m => m

/-- The `final_json` document built by the chunked path.  Its `criteria`
sequence keeps the merged values as the dynamically-typed JSON-derived
values the source accumulates. -/
structure CriteriaDoc where
  regulation_source : PyStr
  extraction_date : PyStr
  total_criteria : Nat
  criteria : List Json

/-- What the `criteria` key of an envelope can hold: the raw (unparsed)
response string that the buggy single-pass parse would store, or the
structured document of the chunked path. -/
inductive CritPayload where
  | raw (s : PyStr)
  | doc (d : CriteriaDoc)

/-- The result envelope.  A key that a given envelope shape leaves out or
sets to `None` is `none` here; the `raw_result` diagnostic is not
modelled. -/
structure Envelope where
  status : PyStr
  criteria : Option CritPayload
  error : Option PyStr

/-- Caller-supplied document metadata (the keys this file reads). -/
structure DocMeta where
  name : Option PyStr
  extraction_date : Option PyStr

/-- The message of `AttributeError: 'str' object has no attribute 'get'`. -/
def strGetAttrMsg : PyStr :=
  "\x27str\x27 object has no attribute \x27get\x27".toList

/-- A Python value that is either a plain string or parsed JSON; used to
model the dynamically-typed `criteria_json` variable. -/
inductive PyObj where
  | ofStr (s : PyStr)
  | ofJson (j : Json)

/-- `x.get(key, default)`: dict lookup for a JSON object (last duplicate
key wins, as in a dict built by `json.loads`), `AttributeError` for a
string or any non-dict value. -/
def pyGet (o : PyObj) (key : PyStr) (default : Json) : Except PyExc Json :=
  match o with
  | .ofStr _ => .error (.attributeError strGetAttrMsg)
  | .ofJson (Json.obj fields) =>
    .ok ((fields.foldl (fun acc kv => if kv.1 = key then some kv.2 else acc) none).getD default)
  | .ofJson _ => .error (.attributeError ("object has no attribute \x27get\x27".toList))

/-- `len(x)` for the JSON values it is applied to. -/
def jsonLen : Json → Except PyExc Nat
  | .arr xs => .ok xs.length
  | .str s => .ok s.length
  | .obj fields => .ok fields.length
  | _ => .error (.typeError ("object of this type has no len()".toList))

/-- `_parse_extraction_result`.  The source strips fences, then sets
`criteria_json = result_str` — the raw string, never handed to a JSON
parser — and calls `criteria_json.get('criteria', [])`, which raises
`AttributeError` on a string; the surrounding `try` catches only
`json.JSONDecodeError`, so the exception escapes. -/
def parse_extraction_result (result : PyStr) : Except PyExc Envelope :=
  let result_str := pyStrip (cleanMarkdown result)
  let criteria_json : PyObj := .ofStr result_str
  let attempt : Except PyExc Envelope :=
    match pyGet criteria_json ("criteria".toList) (Json.arr []) with
    | .error e => .error e
    | .ok criteriaVal =>
      match jsonLen criteriaVal with
      | .error e => .error e
      | .ok _criteria_count =>
        -- `_validate_criteria` only logs warnings.
        .ok { status := "success".toList
              criteria := some (.raw result_str)
              error := none }
  match attempt with
  | .error (.jsonDecodeError m) =>
    .ok { status := "error".toList
          criteria := none
          error := some (("Failed to parse JSON: ".toList) ++ m) }
  | other => other

/-- `_extract_single_pass`: one provider round trip, then the parse. -/
def extract_single_pass (resp : PyStr) : Except PyExc Envelope :=
  parse_extraction_result resp

/-- Last-wins field lookup on a parsed JSON object, matching dict
construction by `json.loads`. -/
def jsonFieldLast (fields : List (PyStr × Json)) (key : PyStr) : Option Json :=
  fields.foldl (fun acc kv => if kv.1 = key then some kv.2 else acc) none

/-- Numeric view of a JSON-derived value for Python comparisons: Python
treats booleans as the integers 0 and 1, and a float literal is kept
exact here as mantissa and power of ten. -/
def numVal : Json → Option (Int × Int)
  | .num n => some (n, 0)
  | .fnum m e => some (m, e)
  | .bool b => some (if b then 1 else 0, 0)
  | _ => none

/-- Exact comparison of two decimal numbers given as mantissa × 10^exp. -/
def numCompare (a b : Int × Int) : Ordering :=
  if b.2 ≤ a.2 then compare (a.1 * (10 : Int) ^ (a.2 - b.2).toNat) b.1
  else compare a.1 (b.1 * (10 : Int) ^ (b.2 - a.2).toNat)

/-- Lexicographic comparison of Python strings by code point. -/
def strCompare : PyStr → PyStr → Ordering
  | [], [] => .eq
  | [], _ :: _ => .lt
  | _ :: _, [] => .gt
  | c :: cs, d :: ds =>
    match compare c.toNat d.toNat with
    | .eq => strCompare cs ds
    | o => o

mutual

/-- Python ordering of the JSON-derived values whose coefficients
`_merge_and_rank_criteria` compares: numbers (booleans and floats
included) compare numerically, strings lexicographically, lists
elementwise; every other combination — `None` or dicts anywhere, or
mixed types — raises `TypeError`, as Python does.  (the Python list
comparison can additionally skip a pair of value-equal dicts via `==`;
here such operands raise, a corner no claim exercises.) -/
def pyCompare : Json → Json → Except PyExc Ordering
  | .str s1, .str s2 => .ok (strCompare s1 s2)
  | .arr xs, .arr ys => pyCompareList xs ys
  | a, b =>
    match numVal a, numVal b with
    | some x, some y => .ok (numCompare x y)
    | _, _ => .error (.typeError ("comparison not supported between operand types".toList))

/-- Elementwise (lexicographic) comparison of two JSON lists. -/
def pyCompareList : List Json → List Json → Except PyExc Ordering
  | [], [] => .ok .eq
  | [], _ :: _ => .ok .lt
  | _ :: _, [] => .ok .gt
  | x :: xs, y :: ys =>
    match pyCompare x y with
    | .error e => .error e
    | .ok .eq => pyCompareList xs ys
    | .ok o => .ok o

end

/-- `criterion.get('name', '').lower().strip()` on a dynamic criterion
value: `AttributeError` when the criterion is not a dict, or when its
`name` value is not a string. -/
def dynNormName (criterion : Json) : Except PyExc PyStr :=
  match criterion with
  | .obj fields =>
    match (jsonFieldLast fields ("name".toList)).getD (Json.str []) with
    | .str s => .ok (pyStrip (pyLower s))
    | _ => .error (.attributeError ("object has no attribute \x27lower\x27".toList))
  | _ => .error (.attributeError ("object has no attribute \x27get\x27".toList))

/-- `criterion.get('coefficient', 0)` on a stored criterion value; only
dict values are ever stored, since storing requires the name lookup to
have succeeded. -/
def dynCoef : Json → Json
  | .obj fields => (jsonFieldLast fields ("coefficient".toList)).getD (Json.num 0)
  | _ => Json.num 0

/-- Lookup in the dynamic `unique_criteria` dict. -/
def dynLookup : List (PyStr × Json) → PyStr → Option Json
  | [], _ => none
  | (k, v) :: m, n => if k = n then some v else dynLookup m n

/-- In-place update of the dynamic `unique_criteria` dict. -/
def dynUpdate : List (PyStr × Json) → PyStr → Json → List (PyStr × Json)
  | [], _, _ => []
  | (k, v) :: m, n, c => if k = n then (k, c) :: m else (k, v) :: dynUpdate m n c

/-- The dedup loop of `_merge_and_rank_criteria` over the dynamic values
the chunk loop accumulates; an `AttributeError` or `TypeError` raised by
its operations aborts the whole merge. -/
def dynDedup : List Json → List (PyStr × Json) → Except PyExc (List (PyStr × Json))
  | [], m => .ok m
  | criterion :: rest, m =>
    match dynNormName criterion with
    | .error e => .error e
    | .ok name =>
      if name ≠ [] then
        match dynLookup m name with
        | none => dynDedup rest (m ++ [(name, criterion)])
        | some stored =>
          match pyCompare (dynCoef criterion) (dynCoef stored) with
          | .error e => .error e
          | .ok .gt => dynDedup rest (dynUpdate m name criterion)
          | .ok _ => dynDedup rest m
      else dynDedup rest m

/-- Stable descending insertion for `sorted(..., reverse=True)` on
dynamic coefficient keys; comparing unorderable keys raises. -/
def dynInsert (x : Json) : List Json → Except PyExc (List Json)
  | [] => .ok [x]
  | y :: ys =>
    match pyCompare (dynCoef x) (dynCoef y) with
    | .error e => .error e
    | .ok .lt =>
      match dynInsert x ys with
      | .error e => .error e
      | .ok zs => .ok (y :: zs)
    | .ok _ => .ok (x :: y :: ys)

/-- `sorted(unique_criteria.values(), key=coefficient, reverse=True)` on
dynamic values. -/
def dynSortDesc : List Json → Except PyExc (List Json)
  | [] => .ok []
  | x :: xs =>
    match dynSortDesc xs with
    | .error e => .error e
    | .ok s => dynInsert x s

/-- `_merge_and_rank_criteria` as the chunked path actually reaches it:
its argument is a plain Python list holding arbitrary JSON-derived
values, so the merge raises out to the orchestrator boundary when an
element is not a dict, a `name` value is not a string, or two compared
coefficients are unorderable.  (`merge_and_rank_criteria` above is the
same source function specialised to well-typed criterion records, as the
merger claims use it.) -/
def merge_and_rank_dynamic (all_criteria : List Json) : Except PyExc (List Json) :=
  match all_criteria with
  | [] => .ok []
  | _ :: _ =>
    match dynDedup all_criteria [] with
    | .error e => .error e
    | .ok unique_criteria =>
      match dynSortDesc (unique_criteria.map Prod.snd) with
      | .error e => .error e
      | .ok sorted_criteria => .ok (sorted_criteria.take 15)

/-- The body of the per-chunk `try`: clean fences, repair-parse, read
`chunk_json.get('criteria', [])` and extend the accumulator with it.
`list.extend` succeeds on a list (adding its elements), on a string
(adding its characters as one-character strings) and on a dict (adding
its keys); it raises `TypeError` for numbers, booleans and `None`. -/
def process_chunk (resp : PyStr) : Except PyExc (List Json) :=
  let result_str := cleanMarkdown resp
  match safe_json_loads (pyStrip result_str) with
  | .error m => .error (.jsonDecodeError m)
  | .ok chunk_json =>
    match chunk_json with
    | .obj fields =>
      match jsonFieldLast fields ("criteria".toList) with
      | none => .ok []
      | some (.arr xs) => .ok xs
      | some (.str s) => .ok (s.map (fun c => Json.str [c]))
      | some (.obj gs) =>
        -- dict keys iterate deduplicated, first occurrence first
        .ok (((gs.map Prod.fst).foldl
          (fun acc k => if k ∈ acc then acc else acc ++ [k]) []).map
            (fun k => Json.str k))
      | some _ => .error (.typeError ("object is not iterable".toList))
    | _ => .error (.attributeError ("object has no attribute \x27get\x27".toList))

/-- The chunk loop accumulator: a chunk whose processing raises is
skipped (`except ... continue`); a successful chunk extends the list. -/
def collectCriteria (resps : List PyStr) : List Json :=
  resps.foldl
    (fun acc r => match process_chunk r with
                  | .ok cs => acc ++ cs
                  | .error _ => acc)
    []

/-- `_extract_from_chunks`: split, extract per chunk with the provider
oracle, merge, and wrap in a success envelope; an exception raised by
the merge propagates (only the per-chunk loop body is guarded). -/
def extract_from_chunks (regulation_text : PyStr) (document_metadata : DocMeta)
    (chunk_size : Nat) (oracle : Nat → PyStr) : Except PyExc Envelope :=
  let chunks := chunk_text regulation_text chunk_size
  let resps := (List.range chunks.length).map oracle
  let all_criteria := collectCriteria resps
  match merge_and_rank_dynamic all_criteria with
  | .error e => .error e
  | .ok merged_criteria =>
    let final_json : CriteriaDoc :=
      { regulation_source := document_metadata.name.getD ("Unknown".toList)
        extraction_date := document_metadata.extraction_date.getD []
        total_criteria := merged_criteria.length
        criteria := merged_criteria }
    .ok { status := "success".toList
          criteria := some (.doc final_json)
          error := none }

/-- The path chosen inside the orchestrator's `try`: chunked beyond the
10000-character gate, single-pass otherwise. -/
def extraction_path (regulation_text : PyStr) (document_metadata : DocMeta)
    (singleResp : PyStr) (oracle : Nat → PyStr) : Except PyExc Envelope :=
  if 10000 < regulation_text.length then
    extract_from_chunks regulation_text document_metadata 10000 oracle
  else
    extract_single_pass singleResp

/-- `extract_criteria_from_regulation`: dispatch on the size gate inside a
catch-all that turns any exception into a `status=error` envelope. -/
def extract_criteria_from_regulation (regulation_text : PyStr)
    (document_metadata : DocMeta) (singleResp : PyStr) (oracle : Nat → PyStr) :
    Envelope :=
  match extraction_path regulation_text document_metadata singleResp oracle with
  | .ok env => env
  | .error e =>
    { status := "error".toList
      criteria := none
      error := some e.message }

/-! ## Concrete inputs used by witnesses and counterexamples -/

/-- A well-formed completion-provider response with 12 criteria. -/
def resp12 : PyStr :=
  ("\x7b\x22regulation_source\x22: \x22EU Reg\x22, \x22extraction_date\x22: \x222024\x22, \x22total_criteria\x22: 12, \x22criteria\x22: [" ++
   "\x7b\x22name\x22: \x22GHG Scope 1\x22, \x22description\x22: \x22d1\x22, \x22coefficient\x22: 10\x7d," ++
   "\x7b\x22name\x22: \x22GHG Scope 2\x22, \x22description\x22: \x22d2\x22, \x22coefficient\x22: 9\x7d," ++
   "\x7b\x22name\x22: \x22Energy Mix\x22, \x22description\x22: \x22d3\x22, \x22coefficient\x22: 8\x7d," ++
   "\x7b\x22name\x22: \x22Water Use\x22, \x22description\x22: \x22d4\x22, \x22coefficient\x22: 8\x7d," ++
   "\x7b\x22name\x22: \x22Waste\x22, \x22description\x22: \x22d5\x22, \x22coefficient\x22: 7\x7d," ++
   "\x7b\x22name\x22: \x22Biodiversity\x22, \x22description\x22: \x22d6\x22, \x22coefficient\x22: 7\x7d," ++
   "\x7b\x22name\x22: \x22Labor Rights\x22, \x22description\x22: \x22d7\x22, \x22coefficient\x22: 6\x7d," ++
   "\x7b\x22name\x22: \x22Board Diversity\x22, \x22description\x22: \x22d8\x22, \x22coefficient\x22: 5\x7d," ++
   "\x7b\x22name\x22: \x22Supply Chain\x22, \x22description\x22: \x22d9\x22, \x22coefficient\x22: 5\x7d," ++
   "\x7b\x22name\x22: \x22Taxonomy Align\x22, \x22description\x22: \x22d10\x22, \x22coefficient\x22: 4\x7d," ++
   "\x7b\x22name\x22: \x22Transition Plan\x22, \x22description\x22: \x22d11\x22, \x22coefficient\x22: 4\x7d," ++
   "\x7b\x22name\x22: \x22Audit Trail\x22, \x22description\x22: \x22d12\x22, \x22coefficient\x22: 3\x7d]\x7d").toList

/-- A 3,000-character document, below the 10,000-character size gate. -/
def docText3000 : PyStr := List.replicate 3000 'a'

/-- The truncated JSON of the repair claim. -/
def truncArrayJson : PyStr := "\x7b\x22a\x22: [1,2".toList

/-- The same truncation with the array already closed: the one-brace case
the appended `}` does repair. -/
def truncBraceJson : PyStr := "\x7b\x22a\x22: [1,2]".toList

/-- An unparseable provider response. -/
def garbageResp : PyStr := "garbage".toList

/-- Sixteen criteria with pairwise distinct names, coefficients 16 down
to 1. -/
def sampleCriteria16 : List Criterion :=
  (List.range 16).map
    (fun i => { name := some [Char.ofNat ('a'.toNat + i)]
                description := none
                coefficient := some (16 - (i : Int)) })

/-- Two same-named (after normalization), equal-coefficient criteria. -/
def cTieFirst : Criterion := { name := some (" Emissions ".toList), description := some ("first".toList), coefficient := some 7 }

def cTieSecond : Criterion := { name := some ("emissions".toList), description := some ("second".toList), coefficient := some 7 }

/-- A criterion with no `name` key. -/
def cNoName : Criterion := { name := none, description := some ("nameless".toList), coefficient := some 9 }

/-- A criterion whose name is whitespace only. -/
def cBlankName : Criterion := { name := some ("   ".toList), description := none, coefficient := some 8 }

def cNamed : Criterion := { name := some ("water".toList), description := none, coefficient := some 4 }

/-- A criterion with no `coefficient` key. -/
def cMissingCoef : Criterion := { name := some ("alpha".toList), description := none, coefficient := none }

/-- Same normalized name as `cMissingCoef`, positive coefficient. -/
def cPosCoef : Criterion := { name := some ("Alpha".toList), description := none, coefficient := some 5 }

/-- A distinct-named criterion with a negative coefficient. -/
def cNegCoef : Criterion := { name := some ("beta".toList), description := none, coefficient := some (-3) }

/-! ## Predicates used in theorem statements -/

/-- Whether a fallible computation raised. -/
def exceptFails {e a : Type} (r : Except e a) : Bool :=
  match r with
  | .error _ => true
  | .ok _ => false

/-- Every stored entry sits under its own normalized name, and no key is
empty. -/
def GoodMap (m : CritMap) : Prop :=
  ∀ p ∈ m, normName p.2 = p.1 ∧ p.1 ≠ []

/-- The invariant carried by the chunk buffer: empty, or ending in the
paragraph separator with either total length at most `maxc + 1` (the
guard admitted its last paragraph) or consisting of a single oversized
paragraph of `P`. -/
def ChunkBufInv (maxc : Nat) (P : List PyStr) (cur : PyStr) : Prop :=
  cur = [] ∨
  ∃ c0, cur = c0 ++ nl2 ∧
    (cur.length ≤ maxc + 1 ∨ ∃ p ∈ P, maxc ≤ p.length ∧ cur = p ++ nl2)

/-! # Theorems

## Association-list (dict) lemmas -/

theorem mapLookup_append (m : CritMap) (k : PyStr) (v : Criterion) (n : PyStr) :
    mapLookup (m ++ [(k, v)]) n =
      match mapLookup m n with
      | some w => some w
      | none => if k = n then some v else none := by
  induction m with
  | nil => simp [mapLookup]
  | cons p m ih =>
    obtain ⟨k', v'⟩ := p
    by_cases h : k' = n <;> simp [mapLookup, h, ih]

theorem mapLookup_update_ne (m : CritMap) (n : PyStr) (c : Criterion) (k : PyStr)
    (h : k ≠ n) : mapLookup (mapUpdate m n c) k = mapLookup m k := by
  induction m with
  | nil => rfl
  | cons p m ih =>
    obtain ⟨k', v'⟩ := p
    by_cases h1 : k' = n
    · subst h1
      have h2 : ¬ k' = k := fun hkk => h (hkk ▸ rfl)
      simp [mapUpdate, mapLookup, h2]
    · by_cases h2 : k' = k <;> simp [mapUpdate, mapLookup, h1, h2, h, ih]

theorem mapLookup_update_self (m : CritMap) (n : PyStr) (c : Criterion)
    (h : (mapLookup m n).isSome) : mapLookup (mapUpdate m n c) n = some c := by
  induction m with
  | nil => simp [mapLookup] at h
  | cons p m ih =>
    obtain ⟨k', v'⟩ := p
    by_cases h1 : k' = n
    · simp [mapUpdate, mapLookup, h1]
    · simp only [mapLookup, if_neg h1] at h
      simp [mapUpdate, mapLookup, h1, ih h]

theorem mapUpdate_keys (m : CritMap) (n : PyStr) (c : Criterion) :
    (mapUpdate m n c).map Prod.fst = m.map Prod.fst := by
  induction m with
  | nil => rfl
  | cons p m ih =>
    obtain ⟨k', v'⟩ := p
    by_cases h1 : k' = n <;> simp [mapUpdate, h1, ih]

theorem mem_mapUpdate {m : CritMap} {n : PyStr} {c : Criterion} {p : PyStr × Criterion}
    (h : p ∈ mapUpdate m n c) : p ∈ m ∨ (p.1 = n ∧ p.2 = c) := by
  induction m with
  | nil => simp [mapUpdate] at h
  | cons q m ih =>
    obtain ⟨k', v'⟩ := q
    by_cases h1 : k' = n
    · subst h1
      rcases (by simpa [mapUpdate] using h : p = (k', c) ∨ p ∈ m) with h2 | h2
      · right; simp [h2]
      · left; simp [h2]
    · rcases (by simpa [mapUpdate, h1] using h : p = (k', v') ∨ p ∈ mapUpdate m n c) with h2 | h2
      · left; simp [h2]
      · rcases ih h2 with h3 | h3
        · left; simp [h3]
        · right; exact h3

theorem mapLookup_eq_none_iff (m : CritMap) (n : PyStr) :
    mapLookup m n = none ↔ n ∉ m.map Prod.fst := by
  induction m with
  | nil => simp [mapLookup]
  | cons p m ih =>
    obtain ⟨k', v'⟩ := p
    by_cases h1 : k' = n
    · subst h1
      simp [mapLookup]
    · simp only [mapLookup, if_neg h1, List.map_cons, List.mem_cons, ih]
      constructor
      · intro hn hor
        rcases hor with hor | hor
        · exact h1 hor.symm
        · exact hn hor
      · intro hn hmem
        exact hn (Or.inr hmem)

theorem mapLookup_mem {m : CritMap} {n : PyStr} {c : Criterion}
    (h : mapLookup m n = some c) : (n, c) ∈ m := by
  induction m with
  | nil => simp [mapLookup] at h
  | cons p m ih =>
    obtain ⟨k', v'⟩ := p
    by_cases h1 : k' = n
    · subst h1
      have hvc : v' = c := by simpa [mapLookup] using h
      subst hvc
      exact List.mem_cons_self _ _
    · simp only [mapLookup, if_neg h1] at h
      exact List.mem_cons_of_mem _ (ih h)

/-! ## `dedupStep` case equations -/

theorem dedupStep_of_empty {c : Criterion} (h : normName c = []) (m : CritMap) :
    dedupStep m c = m := by
  simp [dedupStep, h]

theorem dedupStep_of_none {m : CritMap} {c : Criterion} (h : normName c ≠ [])
    (hlk : mapLookup m (normName c) = none) :
    dedupStep m c = m ++ [(normName c, c)] := by
  simp [dedupStep, h, hlk]

theorem dedupStep_of_gt {m : CritMap} {c stored : Criterion} (h : normName c ≠ [])
    (hlk : mapLookup m (normName c) = some stored) (hco : coefD stored < coefD c) :
    dedupStep m c = mapUpdate m (normName c) c := by
  simp [dedupStep, h, hlk, hco]

theorem dedupStep_of_le {m : CritMap} {c stored : Criterion} (h : normName c ≠ [])
    (hlk : mapLookup m (normName c) = some stored) (hco : coefD c ≤ coefD stored) :
    dedupStep m c = m := by
  simp [dedupStep, h, hlk, Int.not_lt.mpr hco]

/-! ## Dedup-map invariants -/

theorem goodMap_dedupStep {m : CritMap} (hm : GoodMap m) (c : Criterion) :
    GoodMap (dedupStep m c) := by
  by_cases hname : normName c = []
  · rw [dedupStep_of_empty hname]
    exact hm
  · cases hlk : mapLookup m (normName c) with
    | none =>
      rw [dedupStep_of_none hname hlk]
      intro p hp
      rcases List.mem_append.mp hp with h | h
      · exact hm p h
      · have hpc : p = (normName c, c) := by simpa using h
        subst hpc
        exact ⟨rfl, hname⟩
    | some stored =>
      by_cases hco : coefD stored < coefD c
      · rw [dedupStep_of_gt hname hlk hco]
        intro p hp
        rcases mem_mapUpdate hp with h | h
        · exact hm p h
        · obtain ⟨q1, q2⟩ := p
          simp only at h
          rw [h.1, h.2]
          exact ⟨rfl, hname⟩
      · rw [dedupStep_of_le hname hlk (Int.not_lt.mp hco)]
        exact hm

theorem goodMap_dedupAll (X : List Criterion) : GoodMap (dedupAll X) := by
  suffices h : ∀ m, GoodMap m → GoodMap (X.foldl dedupStep m) from
    h [] (by intro p hp; simp at hp)
  induction X with
  | nil => intro m hm; exact hm
  | cons c X ih =>
    intro m hm
    exact ih _ (goodMap_dedupStep hm c)

theorem keys_nodup_dedupStep {m : CritMap} (hm : (m.map Prod.fst).Nodup)
    (c : Criterion) : ((dedupStep m c).map Prod.fst).Nodup := by
  by_cases hname : normName c = []
  · rw [dedupStep_of_empty hname]; exact hm
  · cases hlk : mapLookup m (normName c) with
    | none =>
      rw [dedupStep_of_none hname hlk]
      have hnot : normName c ∉ m.map Prod.fst := (mapLookup_eq_none_iff _ _).mp hlk
      simpa using List.Nodup.append hm (by simp) (by simpa using hnot)
    | some stored =>
      by_cases hco : coefD stored < coefD c
      · rw [dedupStep_of_gt hname hlk hco, mapUpdate_keys]; exact hm
      · rw [dedupStep_of_le hname hlk (Int.not_lt.mp hco)]; exact hm

theorem keys_nodup_dedupAll (X : List Criterion) :
    ((dedupAll X).map Prod.fst).Nodup := by
  suffices h : ∀ m, (m.map Prod.fst).Nodup → ((X.foldl dedupStep m).map Prod.fst).Nodup from
    h [] (by simp)
  induction X with
  | nil => intro m hm; exact hm
  | cons c X ih =>
    intro m hm
    exact ih _ (keys_nodup_dedupStep hm c)

theorem dedupAll_concat (X : List Criterion) (d : Criterion) :
    dedupAll (X ++ [d]) = dedupStep (dedupAll X) d := by
  simp [dedupAll, List.foldl_append]

/-! ## How `dedupStep` affects lookups -/

theorem lookup_dedupStep_ne {m : CritMap} {d : Criterion} {n : PyStr}
    (hne : normName d ≠ n) : mapLookup (dedupStep m d) n = mapLookup m n := by
  by_cases hdn : normName d = []
  · rw [dedupStep_of_empty hdn]
  · cases hlk : mapLookup m (normName d) with
    | none =>
      rw [dedupStep_of_none hdn hlk, mapLookup_append]
      cases mapLookup m n with
      | some w => rfl
      | none => simp [hne]
    | some stored =>
      by_cases hco : coefD stored < coefD d
      · rw [dedupStep_of_gt hdn hlk hco]
        exact mapLookup_update_ne _ _ _ _ (fun h => hne h.symm)
      · rw [dedupStep_of_le hdn hlk (Int.not_lt.mp hco)]

theorem lookup_isSome_dedupStep {m : CritMap} {d : Criterion} {n : PyStr}
    (h : (mapLookup m n).isSome) : (mapLookup (dedupStep m d) n).isSome := by
  by_cases hne : normName d = n
  · subst hne
    by_cases hdn : normName d = []
    · rwa [dedupStep_of_empty hdn]
    · cases hlk : mapLookup m (normName d) with
      | none => simp [hlk] at h
      | some stored =>
        by_cases hco : coefD stored < coefD d
        · rw [dedupStep_of_gt hdn hlk hco, mapLookup_update_self _ _ _ (by simp [hlk])]
          rfl
        · rwa [dedupStep_of_le hdn hlk (Int.not_lt.mp hco)]
  · rwa [lookup_dedupStep_ne hne]

theorem lookup_self_dedupStep {m : CritMap} {d : Criterion}
    (hdn : normName d ≠ []) : (mapLookup (dedupStep m d) (normName d)).isSome := by
  cases hlk : mapLookup m (normName d) with
  | none =>
    rw [dedupStep_of_none hdn hlk, mapLookup_append, hlk]
    simp
  | some stored =>
    by_cases hco : coefD stored < coefD d
    · rw [dedupStep_of_gt hdn hlk hco, mapLookup_update_self _ _ _ (by simp [hlk])]
      rfl
    · rw [dedupStep_of_le hdn hlk (Int.not_lt.mp hco), hlk]
      rfl

theorem dedupAll_lookup_isSome {X : List Criterion} {a : Criterion}
    (ha : a ∈ X) (hne : normName a ≠ []) :
    (mapLookup (dedupAll X) (normName a)).isSome := by
  induction X using List.reverseRecOn with
  | nil => simp at ha
  | append_singleton X d ih =>
    rw [dedupAll_concat]
    rcases List.mem_append.mp ha with h | h
    · exact lookup_isSome_dedupStep (ih h)
    · have had : a = d := by simpa using h
      subst had
      exact lookup_self_dedupStep hne

/-- The survivor stored under key `n` after the dedup loop: it occurs in
the input, it strictly beats every earlier same-key entry (so on a tie the
first-encountered entry survives), and it is at least every later
same-key entry. -/
theorem dedup_survivor_spec (X : List Criterion) (n : PyStr) (c : Criterion)
    (h : mapLookup (dedupAll X) n = some c) :
    n ≠ [] ∧ normName c = n ∧
    ∃ A B, X = A ++ c :: B ∧
      (∀ a ∈ A, normName a = n → coefD a < coefD c) ∧
      (∀ b ∈ B, normName b = n → coefD b ≤ coefD c) := by
  induction X using List.reverseRecOn generalizing n c with
  | nil => simp [dedupAll, mapLookup] at h
  | append_singleton X d ih =>
    rw [dedupAll_concat] at h
    have hgood := goodMap_dedupStep (goodMap_dedupAll X) d
    obtain ⟨hnc, hne⟩ := hgood _ (mapLookup_mem h)
    by_cases hdn : normName d = []
    · rw [dedupStep_of_empty hdn] at h
      obtain ⟨hne', hnc', A, B, hX, hA, hB⟩ := ih _ _ h
      refine ⟨hne', hnc', A, B ++ [d], by rw [hX]; simp, hA, ?_⟩
      intro b hb hbn
      rcases List.mem_append.mp hb with hbB | hbd
      · exact hB b hbB hbn
      · have hbd' : b = d := by simpa using hbd
        subst hbd'
        exact absurd (hbn ▸ hdn : n = []) hne'
    · by_cases hdiff : normName d = n
      · subst hdiff
        cases hlk : mapLookup (dedupAll X) (normName d) with
        | none =>
          rw [dedupStep_of_none hdn hlk, mapLookup_append, hlk, if_pos rfl,
            Option.some.injEq] at h
          subst h
          refine ⟨hdn, rfl, X, [], rfl, ?_, by simp⟩
          intro a ha han
          exact absurd (han ▸ dedupAll_lookup_isSome ha (han ▸ hdn))
            (by simp [hlk])
        | some stored =>
          obtain ⟨_, hncs, A1, B1, hX1, hA1, hB1⟩ := ih _ _ hlk
          by_cases hco : coefD stored < coefD d
          · rw [dedupStep_of_gt hdn hlk hco,
              mapLookup_update_self _ _ _ (by simp [hlk]), Option.some.injEq] at h
            subst h
            refine ⟨hdn, rfl, X, [], rfl, ?_, by simp⟩
            intro a ha han
            rw [hX1] at ha
            rcases List.mem_append.mp ha with haA | haR
            · exact lt_trans (hA1 a haA han) hco
            · rcases List.mem_cons.mp haR with haS | haB
              · exact haS ▸ hco
              · exact lt_of_le_of_lt (hB1 a haB han) hco
          · rw [dedupStep_of_le hdn hlk (Int.not_lt.mp hco)] at h
            have hcs : stored = c := by rw [hlk] at h; exact Option.some.inj h
            subst hcs
            refine ⟨hdn, hncs, A1, B1 ++ [d], by rw [hX1]; simp, hA1, ?_⟩
            intro b hb hbn
            rcases List.mem_append.mp hb with hbB | hbd
            · exact hB1 b hbB hbn
            · have hbd' : b = d := by simpa using hbd
              subst hbd'
              exact Int.not_lt.mp hco
      · rw [lookup_dedupStep_ne hdiff] at h
        obtain ⟨hne', hnc', A, B, hX, hA, hB⟩ := ih _ _ h
        refine ⟨hne', hnc', A, B ++ [d], by rw [hX]; simp, hA, ?_⟩
        intro b hb hbn
        rcases List.mem_append.mp hb with hbB | hbd
        · exact hB b hbB hbn
        · have hbd' : b = d := by simpa using hbd
          subst hbd'
          exact absurd hbn hdiff

/-! ## Merge-output lemmas -/

theorem mem_dedupVals_normName_ne {X : List Criterion} {c : Criterion}
    (h : c ∈ dedupVals X) : normName c ≠ [] := by
  obtain ⟨p, hp, hpc⟩ := List.mem_map.mp h
  obtain ⟨h1, h2⟩ := goodMap_dedupAll X p hp
  rw [← hpc]
  rw [h1]
  exact h2

theorem dedupVals_map_normName (X : List Criterion) :
    (dedupVals X).map normName = (dedupAll X).map Prod.fst := by
  unfold dedupVals
  rw [List.map_map]
  exact List.map_congr_left (fun p hp => (goodMap_dedupAll X p hp).1)

theorem dedupVals_normName_nodup (X : List Criterion) :
    ((dedupVals X).map normName).Nodup := by
  rw [dedupVals_map_normName]
  exact keys_nodup_dedupAll X

theorem mem_merge_subset {X : List Criterion} {c : Criterion}
    (h : c ∈ merge_and_rank_criteria X) : c ∈ dedupVals X := by
  unfold merge_and_rank_criteria at h
  by_cases hX : X = []
  · simp [hX] at h
  · rw [if_neg hX] at h
    exact (List.mem_insertionSort coefGE).mp ((List.take_sublist _ _).mem h)

theorem merge_sorted (X : List Criterion) :
    List.Sorted coefGE (merge_and_rank_criteria X) := by
  unfold merge_and_rank_criteria
  by_cases hX : X = []
  · simp [hX, List.Sorted]
  · rw [if_neg hX]
    exact (List.sorted_insertionSort coefGE (dedupVals X)).sublist
      (List.take_sublist _ _)

theorem merge_map_normName_nodup (X : List Criterion) :
    ((merge_and_rank_criteria X).map normName).Nodup := by
  unfold merge_and_rank_criteria
  by_cases hX : X = []
  · simp [hX]
  · rw [if_neg hX]
    have hperm : List.Perm ((List.insertionSort coefGE (dedupVals X)).map normName)
        ((dedupVals X).map normName) :=
      (List.perm_insertionSort coefGE (dedupVals X)).map normName
    have hnodup : ((List.insertionSort coefGE (dedupVals X)).map normName).Nodup :=
      hperm.nodup_iff.mpr (dedupVals_normName_nodup X)
    exact hnodup.sublist ((List.take_sublist _ _).map normName)

theorem foldl_dedupStep_fresh :
    ∀ (Y : List Criterion) (m : CritMap),
      (∀ d ∈ Y, normName d ≠ []) → ((Y.map normName).Nodup) →
      (∀ d ∈ Y, mapLookup m (normName d) = none) →
      Y.foldl dedupStep m = m ++ Y.map (fun d => (normName d, d))
  | [], m, _, _, _ => by simp
  | d :: rest, m, hne, hnd, hfresh => by
    have hstep : dedupStep m d = m ++ [(normName d, d)] :=
      dedupStep_of_none (hne d (by simp)) (hfresh d (by simp))
    rw [List.map_cons] at hnd
    have hnd' := (List.nodup_cons.mp hnd).2
    have hdne := (List.nodup_cons.mp hnd).1
    have hfresh' : ∀ e ∈ rest, mapLookup (m ++ [(normName d, d)]) (normName e) = none := by
      intro e he
      rw [mapLookup_append, hfresh e (by simp [he])]
      have : normName d ≠ normName e := by
        intro hcontra
        exact hdne (hcontra ▸ List.mem_map_of_mem normName he)
      simp [this]
    calc (d :: rest).foldl dedupStep m
        = rest.foldl dedupStep (m ++ [(normName d, d)]) := by
          simp [List.foldl_cons, hstep]
      _ = m ++ [(normName d, d)] ++ rest.map (fun e => (normName e, e)) :=
          foldl_dedupStep_fresh rest _ (fun e he => hne e (by simp [he])) hnd' hfresh'
      _ = m ++ (d :: rest).map (fun e => (normName e, e)) := by simp

theorem dedupVals_of_distinct (Y : List Criterion)
    (hne : ∀ d ∈ Y, normName d ≠ []) (hnd : (Y.map normName).Nodup) :
    dedupVals Y = Y := by
  unfold dedupVals dedupAll
  rw [foldl_dedupStep_fresh Y [] hne hnd (fun d _ => rfl)]
  simp only [List.nil_append, List.map_map]
  have hid : (Prod.snd ∘ fun d : Criterion => (normName d, d)) = id := rfl
  rw [hid, List.map_id]

theorem merge_length_le (X : List Criterion) :
    (merge_and_rank_criteria X).length ≤ 15 := by
  unfold merge_and_rank_criteria
  by_cases hX : X = []
  · simp [hX]
  · rw [if_neg hX]
    exact List.length_take_le 15 _

/-! ## Claim theorems: merger -/

/-- C4: for every input list, the merger's output is sorted by coefficient
in descending order and has length at most 15 (exactly `min` of the
deduplicated count and 15); any deduplicated criterion left out of the
output has a coefficient at most that of every criterion kept, so when
more than 15 deduplicated criteria remain the survivors are the 15 with
the highest coefficients. -/
theorem merge_rank_sorted_bounded (X : List Criterion) :
    List.Sorted coefGE (merge_and_rank_criteria X) ∧
    (merge_and_rank_criteria X).length = min (dedupVals X).length 15 ∧
    ∀ x ∈ merge_and_rank_criteria X, ∀ y ∈ dedupVals X,
      y ∉ merge_and_rank_criteria X → coefD y ≤ coefD x := by
  refine ⟨merge_sorted X, ?_, ?_⟩
  · unfold merge_and_rank_criteria
    by_cases hX : X = []
    · simp [hX, dedupVals, dedupAll]
    · rw [if_neg hX, List.length_take, List.length_insertionSort, Nat.min_comm]
  · intro x hx y hy hynot
    unfold merge_and_rank_criteria at hx hynot
    by_cases hX : X = []
    · simp [hX] at hx
    · rw [if_neg hX] at hx hynot
      have hyS : y ∈ List.insertionSort coefGE (dedupVals X) :=
        (List.mem_insertionSort coefGE).mpr hy
      have hyDrop : y ∈ (List.insertionSort coefGE (dedupVals X)).drop 15 := by
        rcases List.mem_append.mp
          ((List.take_append_drop 15 (List.insertionSort coefGE (dedupVals X))) ▸ hyS)
          with h | h
        · exact absurd h hynot
        · exact h
      exact (List.sorted_insertionSort coefGE (dedupVals X)).rel_of_mem_take_of_mem_drop
        hx hyDrop

/-- C4 witness: on sixteen distinct-named criteria the merger keeps 15,
and the dropped sixteenth (coefficient 1) is at most each survivor. -/
theorem merge_rank_sorted_bounded_witness :
    coefD { name := some ['p'], description := none, coefficient := some 1 } ≤
      coefD { name := some ['a'], description := none, coefficient := some 16 } :=
  (merge_rank_sorted_bounded sampleCriteria16).2.2
    { name := some ['a'], description := none, coefficient := some 16 } (by decide)
    { name := some ['p'], description := none, coefficient := some 1 } (by decide)
    (by decide)

/-- C5: the criterion stored under a dedup key strictly beats every
earlier same-key input criterion — the stored entry is replaced only by a
strictly greater coefficient, so on an equal-coefficient tie the
first-encountered criterion survives — and is at least every later
same-key input criterion. -/
theorem merge_dedup_replace_strict (X : List Criterion) (n : PyStr) (c : Criterion)
    (h : mapLookup (dedupAll X) n = some c) :
    normName c = n ∧ c ∈ dedupVals X ∧
    ∃ A B, X = A ++ c :: B ∧
      (∀ a ∈ A, normName a = n → coefD a < coefD c) ∧
      (∀ b ∈ B, normName b = n → coefD b ≤ coefD c) := by
  obtain ⟨_, hnc, A, B, hX, hA, hB⟩ := dedup_survivor_spec X n c h
  exact ⟨hnc, List.mem_map_of_mem Prod.snd (mapLookup_mem h), A, B, hX, hA, hB⟩

/-- C5 witness: two same-named criteria with equal coefficient 7; the dict
stores the first-encountered one. -/
theorem merge_dedup_replace_strict_witness :
    normName cTieFirst = ("emissions".toList) ∧ cTieFirst ∈ dedupVals [cTieFirst, cTieSecond] ∧
    ∃ A B, [cTieFirst, cTieSecond] = A ++ cTieFirst :: B ∧
      (∀ a ∈ A, normName a = ("emissions".toList) → coefD a < coefD cTieFirst) ∧
      (∀ b ∈ B, normName b = ("emissions".toList) → coefD b ≤ coefD cTieFirst) :=
  merge_dedup_replace_strict [cTieFirst, cTieSecond] ("emissions".toList) cTieFirst
    (by decide)

/-- C8: the merger is idempotent — its output is already deduplicated by
normalized name and already sorted descending, so feeding it back in
returns it unchanged. -/
theorem merge_rank_idempotent (X : List Criterion) :
    merge_and_rank_criteria (merge_and_rank_criteria X) = merge_and_rank_criteria X := by
  by_cases hY : merge_and_rank_criteria X = []
  · rw [hY]
    rfl
  · have hne : ∀ d ∈ merge_and_rank_criteria X, normName d ≠ [] :=
      fun d hd => mem_dedupVals_normName_ne (mem_merge_subset hd)
    have hnd := merge_map_normName_nodup X
    have hlen : (merge_and_rank_criteria X).length ≤ 15 := merge_length_le X
    conv_lhs => rw [merge_and_rank_criteria]
    rw [if_neg hY, dedupVals_of_distinct _ hne hnd,
      (merge_sorted X).insertionSort_eq, List.take_of_length_le hlen]

/-- C9: the merger silently drops every criterion whose `name` key is
missing or whose normalized name is empty — no such criterion appears in
any merged output — so an input without duplicate names can still shrink:
of `[cNoName, cBlankName, cNamed]` only `cNamed` survives. -/
theorem merge_drops_empty_names :
    (∀ (X : List Criterion) (c : Criterion),
      c ∈ merge_and_rank_criteria X → normName c ≠ []) ∧
    merge_and_rank_criteria [cNoName, cBlankName, cNamed] = [cNamed] := by
  constructor
  · intro X c hc
    exact mem_dedupVals_normName_ne (mem_merge_subset hc)
  · decide

/-- C9 witness: the surviving criterion of a singleton merge has a
nonempty normalized name. -/
theorem merge_drops_empty_names_witness : normName cNamed ≠ [] :=
  merge_drops_empty_names.1 [cNamed] cNamed (by decide)

/-- C10: a criterion without a `coefficient` key is treated as
coefficient 0 — during dedup a same-named criterion with positive
coefficient replaces it and is never replaced by it, and in the ranked
output an element with a missing coefficient is never followed by one
with a positive coefficient. -/
theorem missing_coefficient_as_zero :
    (∀ c₁ c₂ : Criterion, c₁.coefficient = none → normName c₂ = normName c₁ →
      normName c₁ ≠ [] → 0 < coefD c₂ →
      mapLookup (dedupAll [c₁, c₂]) (normName c₁) = some c₂ ∧
      mapLookup (dedupAll [c₂, c₁]) (normName c₁) = some c₂) ∧
    (∀ (X : List Criterion) (i j : Nat) (hij : i < j)
      (hj : j < (merge_and_rank_criteria X).length),
      ((merge_and_rank_criteria X).get ⟨i, lt_trans hij hj⟩).coefficient = none →
      coefD ((merge_and_rank_criteria X).get ⟨j, hj⟩) ≤ 0) := by
  constructor
  · intro c₁ c₂ hnone heq hne hpos
    have hc1 : coefD c₁ = 0 := by simp [coefD, hnone]
    have hne2 : normName c₂ ≠ [] := by rw [heq]; exact hne
    have hgt : coefD c₁ < coefD c₂ := by rw [hc1]; exact hpos
    constructor
    · have hlk1 : mapLookup [(normName c₁, c₁)] (normName c₂) = some c₁ := by
        simp [mapLookup, heq]
      have e1 : dedupAll [c₁, c₂] = dedupStep (dedupStep [] c₁) c₂ := rfl
      rw [e1, dedupStep_of_none hne (by rfl), List.nil_append,
        dedupStep_of_gt hne2 hlk1 hgt]
      simp [mapUpdate, mapLookup, heq]
    · have hlk2 : mapLookup [(normName c₂, c₂)] (normName c₁) = some c₂ := by
        simp [mapLookup, heq]
      have e2 : dedupAll [c₂, c₁] = dedupStep (dedupStep [] c₂) c₁ := rfl
      rw [e2, dedupStep_of_none hne2 (by rfl), List.nil_append,
        dedupStep_of_le hne hlk2 (le_of_lt hgt)]
      simp [mapLookup, heq]
  · intro X i j hij hj hnone
    have hrel := (merge_sorted X).rel_get_of_lt
      (a := ⟨i, lt_trans hij hj⟩) (b := ⟨j, hj⟩) hij
    have hrel' : coefD ((merge_and_rank_criteria X).get ⟨j, hj⟩) ≤
        coefD ((merge_and_rank_criteria X).get ⟨i, lt_trans hij hj⟩) := hrel
    have hzero : coefD ((merge_and_rank_criteria X).get ⟨i, lt_trans hij hj⟩) = 0 := by
      unfold coefD
      rw [hnone]
      rfl
    rw [hzero] at hrel'
    exact hrel'

/-- C10 witness: `cMissingCoef` loses to `cPosCoef` in both orders, and in
the ranked output `[cMissingCoef, cNegCoef]` the element after the
missing-coefficient one has a nonpositive coefficient. -/
theorem missing_coefficient_as_zero_witness :
    (mapLookup (dedupAll [cMissingCoef, cPosCoef]) (normName cMissingCoef) = some cPosCoef ∧
     mapLookup (dedupAll [cPosCoef, cMissingCoef]) (normName cMissingCoef) = some cPosCoef) ∧
    coefD ((merge_and_rank_criteria [cMissingCoef, cNegCoef]).get ⟨1, by decide⟩) ≤ 0 :=
  ⟨missing_coefficient_as_zero.1 cMissingCoef cPosCoef (by decide) (by decide)
    (by decide) (by decide),
   missing_coefficient_as_zero.2 [cMissingCoef, cNegCoef] 0 1 (by decide) (by decide)
    (by decide)⟩

/-! ## Claim theorems: chunker -/

theorem pyStrip_length_le (s : PyStr) : (pyStrip s).length ≤ s.length :=
  le_trans (List.dropWhile_sublist isPySpace).length_le
    (List.IsPrefix.length_le ( List.rdropWhile_prefix isPySpace s))

theorem pyStripRight_append_nl2 (s : PyStr) :
    pyStripRight (s ++ nl2) = pyStripRight s := by
  have h : s ++ nl2 = (s ++ ['\n']) ++ ['\n'] := by simp [nl2]
  unfold pyStripRight
  rw [h, List.rdropWhile_concat, if_pos (by rfl), List.rdropWhile_concat,
    if_pos (by rfl)]

theorem pyStrip_append_nl2 (s : PyStr) : pyStrip (s ++ nl2) = pyStrip s := by
  unfold pyStrip
  rw [pyStripRight_append_nl2]

theorem pyStrip_nl2_length (s : PyStr) : (pyStrip (s ++ nl2)).length ≤ s.length := by
  rw [pyStrip_append_nl2]
  exact pyStrip_length_le s

theorem chunk_emit_sound {maxc : Nat} {P : List PyStr} {cur : PyStr}
    (h : ChunkBufInv maxc P cur) :
    ∀ chunk ∈ (if cur ≠ [] then [pyStrip cur] else []),
      chunk.length < maxc ∨ ∃ p ∈ P, maxc ≤ p.length ∧ chunk = pyStrip p := by
  intro chunk hchunk
  by_cases hcur : cur = []
  · simp [hcur] at hchunk
  · rw [if_pos hcur] at hchunk
    have hc : chunk = pyStrip cur := by simpa using hchunk
    subst hc
    rcases h with h | ⟨c0, hc0, h | ⟨p, hp, hple, hcur'⟩⟩
    · exact absurd h hcur
    · left
      have h1 : (pyStrip cur).length ≤ c0.length := hc0 ▸ pyStrip_nl2_length c0
      have h2 : cur.length = c0.length + 2 := by simp [hc0, nl2]
      omega
    · right
      exact ⟨p, hp, hple, by rw [hcur', pyStrip_append_nl2]⟩

theorem chunkLoop_sound (maxc : Nat) (P : List PyStr) :
    ∀ (paras : List PyStr) (cur : PyStr), (∀ p ∈ paras, p ∈ P) →
      ChunkBufInv maxc P cur →
      ∀ chunk ∈ chunkLoop maxc paras cur,
        chunk.length < maxc ∨ ∃ p ∈ P, maxc ≤ p.length ∧ chunk = pyStrip p
  | [], cur, _, hinv => by
    intro chunk hchunk
    exact chunk_emit_sound hinv chunk (by simpa [chunkLoop] using hchunk)
  | para :: rest, cur, hsub, hinv => by
    intro chunk hchunk
    rw [chunkLoop] at hchunk
    by_cases hguard : cur.length + para.length < maxc
    · rw [if_pos hguard] at hchunk
      refine chunkLoop_sound maxc P rest (cur ++ para ++ nl2)
        (fun p hp => hsub p (List.mem_cons_of_mem _ hp)) ?_ chunk hchunk
      right
      refine ⟨cur ++ para, by simp, Or.inl ?_⟩
      have : (cur ++ para ++ nl2).length = cur.length + para.length + 2 := by
        simp [nl2]
        omega
      omega
    · rw [if_neg hguard] at hchunk
      rcases List.mem_append.mp hchunk with hch | hch
      · exact chunk_emit_sound hinv chunk hch
      · refine chunkLoop_sound maxc P rest (para ++ nl2)
          (fun p hp => hsub p (List.mem_cons_of_mem _ hp)) ?_ chunk hch
        right
        refine ⟨para, rfl, ?_⟩
        by_cases hbig : maxc ≤ para.length
        · exact Or.inr ⟨para, hsub para (List.mem_cons_self _ _), hbig, rfl⟩
        · left
          have : (para ++ nl2).length = para.length + 2 := by simp [nl2]
          omega

/-- C6: every chunk produced by the chunker other than the final one has
length strictly below `max_chars`, except when it is a single paragraph
of the text whose own length reaches or exceeds `max_chars` (the chunk is
then that paragraph, stripped). -/
theorem chunk_nonfinal_bounded (text : PyStr) (max_chars : Nat) (chunk : PyStr)
    (h : chunk ∈ (chunk_text text max_chars).dropLast) :
    chunk.length < max_chars ∨
    ∃ p ∈ splitParas text, max_chars ≤ p.length ∧ chunk = pyStrip p := by
  unfold chunk_text at h
  by_cases hlen : text.length ≤ max_chars
  · rw [if_pos hlen] at h
    simp at h
  · rw [if_neg hlen] at h
    exact chunkLoop_sound max_chars (splitParas text) (splitParas text) []
      (fun p hp => hp) (Or.inl rfl) chunk
      ((List.dropLast_sublist _).mem h)

/-- C6 witness: with `max_chars = 5`, the text `"aaaaaaaa\n\nbb"` yields a
non-final chunk that is a single oversized paragraph. -/
theorem chunk_nonfinal_bounded_witness :
    ("aaaaaaaa".toList).length < 5 ∨
    ∃ p ∈ splitParas ("aaaaaaaa\n\nbb".toList), 5 ≤ p.length ∧
      ("aaaaaaaa".toList) = pyStrip p :=
  chunk_nonfinal_bounded ("aaaaaaaa\n\nbb".toList) 5 ("aaaaaaaa".toList) (by decide)

/-! ## Claim theorems: pipeline -/

/-- The parse step of the single-pass path raises `AttributeError` for
every response: `criteria_json` is the raw string (the source never calls
a JSON parser on it), `.get` on a string raises, and the `except` clause
catches only `json.JSONDecodeError`. -/
theorem parse_extraction_result_raises (result : PyStr) :
    parse_extraction_result result = .error (.attributeError strGetAttrMsg) := rfl

/-- C1 (bug evidence): on the single-pass path the orchestrator returns
the `AttributeError` error envelope for every document below the size
gate and every provider response — never `status=success` — because
`_parse_extraction_result` calls `.get` on the unparsed response string. -/
theorem single_pass_attribute_error_bug (text : PyStr) (meta : DocMeta)
    (resp : PyStr) (oracle : Nat → PyStr) (h : text.length ≤ 10000) :
    extract_criteria_from_regulation text meta resp oracle =
      { status := "error".toList, criteria := none, error := some strGetAttrMsg } := by
  unfold extract_criteria_from_regulation extraction_path
  rw [if_neg (Nat.not_lt.mpr h)]
  rfl

set_option maxRecDepth 40000

/-- C1 witness: the 3,000-character document takes the single-pass path;
the 12-criterion response is well-formed JSON (it parses), yet the
pipeline returns `status=error` with the `AttributeError` message. -/
theorem single_pass_attribute_error_bug_witness :
    exceptFails (json_loads resp12) = false ∧
    extract_criteria_from_regulation docText3000
        ⟨some ("EU Reg".toList), some ("2024".toList)⟩ resp12 (fun _ => []) =
      { status := "error".toList, criteria := none, error := some strGetAttrMsg } :=
  ⟨by rfl,
   single_pass_attribute_error_bug docText3000
     ⟨some ("EU Reg".toList), some ("2024".toList)⟩ resp12 (fun _ => [])
     (by rw [docText3000, List.length_replicate]; omega)⟩

/-- C2 counterexample: on the truncated input `{"a": [1,2` the repair
utility does not succeed — it propagates the final decode error. -/
theorem repair_truncated_array_raises :
    safe_json_loads truncArrayJson = Except.error ("Expecting , delimiter".toList) := by
  rfl

/-- C2 (amended): on `{"a": [1,2` the repair appends the excess `}`
before the excess `]`, yielding `{"a": [1,2}]`, which still fails to
parse, so `safe_json_loads` raises the decode error instead of returning
`{"a": [1, 2]}`; the appended closers do repair the input `{"a": [1,2]`,
whose only missing closer is the brace. -/
theorem repair_truncated_array_amended :
    appendClosers truncArrayJson = ("\x7b\x22a\x22: [1,2\x7d]".toList) ∧
    exceptFails (json_loads (appendClosers truncArrayJson)) = true ∧
    exceptFails (safe_json_loads truncArrayJson) = true ∧
    safe_json_loads truncBraceJson =
      Except.ok (Json.obj [(['a'], Json.arr [Json.num 1, Json.num 2])]) :=
  ⟨by rfl, by rfl, by rfl, by rfl⟩

theorem collect_foldl_all_fail :
    ∀ (rs : List PyStr) (acc : List Json),
      (∀ r ∈ rs, exceptFails (process_chunk r) = true) →
      rs.foldl (fun acc r => match process_chunk r with
                             | .ok cs => acc ++ cs
                             | .error _ => acc) acc = acc
  | [], _, _ => rfl
  | r :: rest, acc, h => by
    rw [List.foldl_cons]
    cases hpr : process_chunk r with
    | ok cs => exact absurd (h r (List.mem_cons_self _ _)) (by simp [exceptFails, hpr])
    | error e =>
      simp only [hpr]
      exact collect_foldl_all_fail rest acc (fun r' hr' => h r' (List.mem_cons_of_mem _ hr'))

/-- C3: when every chunk's processing raises, `_extract_from_chunks`
still returns a `status=success` envelope whose criteria list is empty
and whose `total_criteria` is 0; and a chunk whose processing raises
contributes nothing while the remaining chunks are processed exactly as
if it were absent. -/
theorem chunk_failures_skipped :
    (∀ (text : PyStr) (meta : DocMeta) (oracle : Nat → PyStr),
      (∀ i, i < (chunk_text text 10000).length →
        exceptFails (process_chunk (oracle i)) = true) →
      extract_from_chunks text meta 10000 oracle =
        .ok { status := "success".toList,
              criteria := some (.doc
                { regulation_source := meta.name.getD ("Unknown".toList),
                  extraction_date := meta.extraction_date.getD [],
                  total_criteria := 0,
                  criteria := [] }),
              error := none }) ∧
    (∀ (a b : List PyStr) (r : PyStr), exceptFails (process_chunk r) = true →
      collectCriteria (a ++ r :: b) = collectCriteria (a ++ b)) := by
  constructor
  · intro text meta oracle hfail
    have hcol : collectCriteria
        ((List.range (chunk_text text 10000).length).map oracle) = [] := by
      unfold collectCriteria
      apply collect_foldl_all_fail
      intro r hr
      obtain ⟨i, hi, hri⟩ := List.mem_map.mp hr
      rw [← hri]
      exact hfail i (List.mem_range.mp hi)
    simp only [extract_from_chunks, hcol]
    rfl
  · intro a b r hfail
    unfold collectCriteria
    rw [List.foldl_append, List.foldl_cons]
    cases hpr : process_chunk r with
    | ok cs => exact absurd hfail (by simp [exceptFails, hpr])
    | error e =>
      simp only [hpr]
      rw [← List.foldl_append]

set_option maxHeartbeats 1000000

/-- C3 witness: with a single-chunk text and a provider that answers
unparseable garbage, the chunked path returns success with zero criteria;
and dropping the garbage response from a response list leaves the
collected criteria unchanged. -/
theorem chunk_failures_skipped_witness :
    extract_from_chunks ("hi".toList) ⟨some ("Doc".toList), none⟩ 10000
        (fun _ => garbageResp) =
      .ok { status := "success".toList,
            criteria := some (.doc
              { regulation_source := "Doc".toList, extraction_date := [],
                total_criteria := 0, criteria := [] }),
            error := none } ∧
    collectCriteria ([] ++ garbageResp :: []) = collectCriteria ([] ++ []) :=
  ⟨chunk_failures_skipped.1 ("hi".toList) ⟨some ("Doc".toList), none⟩
     (fun _ => garbageResp)
     (fun _ _ => (by decide : exceptFails (process_chunk garbageResp) = true)),
   chunk_failures_skipped.2 [] [] garbageResp (by decide)⟩

/-- A parseable chunk whose `criteria` value is a string or a bare
number list is not skipped: `extend` accepts it (characters of the
string, elements of the list), and the poison values later make the
merge raise out of the chunked extraction, as the program does; only a
non-iterable `criteria` value (a number) raises inside the per-chunk
guard and skips the chunk. -/
theorem poison_criteria_not_skipped :
    process_chunk ("\x7b\x22criteria\x22: \x22xy\x22\x7d".toList) =
      .ok [Json.str ['x'], Json.str ['y']] ∧
    exceptFails (extract_from_chunks ("hi".toList) ⟨none, none⟩ 10000
      (fun _ => ("\x7b\x22criteria\x22: \x22xy\x22\x7d".toList))) = true ∧
    exceptFails (extract_from_chunks ("hi".toList) ⟨none, none⟩ 10000
      (fun _ => ("\x7b\x22criteria\x22: [5]\x7d".toList))) = true ∧
    exceptFails (process_chunk ("\x7b\x22criteria\x22: 5\x7d".toList)) = true :=
  ⟨by rfl, by decide, by decide, by decide⟩

/-- C7: the orchestrator is a total function returning an envelope whose
status is `success` or `error`, and whenever the dispatched path raises,
the raised exception is converted into the `status=error` envelope
carrying the exception message. -/
theorem orchestrator_never_raises (text : PyStr) (meta : DocMeta)
    (singleResp : PyStr) (oracle : Nat → PyStr) :
    ((extract_criteria_from_regulation text meta singleResp oracle).status =
        ("success".toList) ∨
     (extract_criteria_from_regulation text meta singleResp oracle).status =
        ("error".toList)) ∧
    ∀ e, extraction_path text meta singleResp oracle = .error e →
      extract_criteria_from_regulation text meta singleResp oracle =
        { status := "error".toList, criteria := none, error := some e.message } := by
  constructor
  · unfold extract_criteria_from_regulation
    cases hp : extraction_path text meta singleResp oracle with
    | error e => right; rfl
    | ok env =>
      unfold extraction_path at hp
      by_cases hlen : 10000 < text.length
      · rw [if_pos hlen] at hp
        simp only [extract_from_chunks] at hp
        cases hm : merge_and_rank_dynamic
            (collectCriteria ((List.range (chunk_text text 10000).length).map oracle)) with
        | error e =>
          rw [hm] at hp
          exact absurd hp (by simp)
        | ok merged =>
          rw [hm] at hp
          simp only [Except.ok.injEq] at hp
          left
          rw [← hp]
      · rw [if_neg hlen] at hp
        rw [show extract_single_pass singleResp =
          .error (.attributeError strGetAttrMsg) from rfl] at hp
        exact absurd hp (by simp)
  · intro e he
    unfold extract_criteria_from_regulation
    rw [he]

/-- C7 witness: a short document dispatches to the single-pass path,
whose `AttributeError` is caught at the orchestrator boundary and
returned as the `status=error` envelope with the exception message. -/
theorem orchestrator_never_raises_witness :
    extract_criteria_from_regulation ("hi".toList) ⟨none, none⟩ garbageResp
        (fun _ => []) =
      { status := "error".toList, criteria := none,
        error := some (PyExc.attributeError strGetAttrMsg).message } :=
  (orchestrator_never_raises ("hi".toList) ⟨none, none⟩ garbageResp
    (fun _ => [])).2 (.attributeError strGetAttrMsg) (by rfl)
